import Mathlib

/-!
Shallow embedding of the round/session engine of the kusogaki-bot repository.

Covered source files:
* `kusogaki_bot/features/guess_the_anime/service.py` (`GTAGameService`)
* `kusogaki_bot/features/guess_the_anime/cog.py` (`AnswerView.make_callback`,
  `GTAQuizCog._handle_answer`, `GTAQuizCog._run_game`)
* `kusogaki_bot/features/guess_the_anime/data.py` (`GTARepository` leaderboard)
* `kusogaki_bot/shared/services/image_preloader.py` (`ImagePreloader`)
* `kusogaki_bot/services/game_manager.py` (`GameManager.run_game`)

Python `int` is modelled by `Int` (it is unbounded and may go negative),
counters that are only ever incremented from 0 by `Nat`, python `set` by
`Finset Nat`, and python `dict` (insertion ordered, unique keys) by an
association list `List (Nat × _)`.  Collaborator calls (database repository,
randomness) are passed in as explicit arguments or oracle functions.
-/

namespace Kusogaki

/-- `GameDifficulty` enum from `data.py`. -/
inductive GameDifficulty
  | easy
  | medium
  | hard
  | normal
deriving DecidableEq

/-- `GameDifficulty.__str__` from `data.py`: the lowercase difficulty string. -/
def difficultyStr : GameDifficulty → String
  | .easy => "easy"
  | .medium => "medium"
  | .hard => "hard"
  | .normal => "normal"

/-- `PlayerState` dataclass from `data.py` (defaults: 3 lives, score 0). -/
structure PlayerState where
  id : Nat
  name : String
  lives : Int := 3
  score : Int := 0
deriving DecidableEq

/-- `GameState` dataclass from `data.py` (fields that carry game logic;
`start_time`, `current_round_difficulty` and the feedback strings are
presentation-only and omitted). -/
structure GameState where
  channel_id : Nat
  creator_id : Nat
  players : List (Nat × PlayerState) := []
  difficulty : GameDifficulty
  is_active : Bool := false
  correct_streak : Int := 0
  answered_players : Finset Nat := ∅
  timed_out_players : Finset Nat := ∅
  easy_correct : Nat := 0
  medium_correct : Nat := 0
  hard_correct : Nat := 0
  processing_answers : Bool := false
deriving DecidableEq

/-- `game.players[pid]` lookup (python dict access; `none` models `KeyError`). -/
def lookupPlayer (ps : List (Nat × PlayerState)) (pid : Nat) : Option PlayerState :=
  (ps.find? (fun q => q.1 == pid)).map (·.2)

/-- In-place mutation of the dict entry for `pid` (python mutates the
`PlayerState` object stored under that key). -/
def updatePlayer (ps : List (Nat × PlayerState)) (pid : Nat)
    (f : PlayerState → PlayerState) : List (Nat × PlayerState) :=
  ps.map (fun q => if q.1 = pid then (q.1, f q.2) else q)

/-- Thresholds from `GTAGameService.__init__`. -/
def EASY_THRESHOLD : Nat := 2

def MEDIUM_THRESHOLD : Nat := 2

def HARD_THRESHOLD : Nat := 3

/-- `GTAGameService.create_game`: the freshly constructed `GameState`
(before the creator is added). -/
def newGameState (channel_id creator_id : Nat) (difficulty : GameDifficulty) : GameState :=
  { channel_id := channel_id
    creator_id := creator_id
    players := []
    difficulty := difficulty
    easy_correct := 0
    medium_correct := 0
    hard_correct := 0
    correct_streak := 0 }

/-- `GTAGameService.add_player` (the per-game part; the `CommandResult`
success flag is the returned `Bool`). -/
def add_player (g : GameState) (player_id : Nat) (player_name : String) :
    GameState × Bool :=
  if g.is_active then (g, false)
  else if (lookupPlayer g.players player_id).isSome then (g, false)
  else
    ({ g with players := g.players ++ [(player_id, { id := player_id, name := player_name })] },
      true)

/-- `GTAGameService.create_game` followed by the automatic
`add_player(channel_id, creator_id, creator_name)` call it performs. -/
def create_game (channel_id creator_id : Nat) (difficulty : GameDifficulty)
    (creator_name : String) : GameState :=
  (add_player (newGameState channel_id creator_id difficulty) creator_id creator_name).1

/-- `GTAGameService.start_game` (the state mutation on success). -/
def start_game (g : GameState) : GameState :=
  { g with is_active := true }

/-- `GTAGameService.start_next_round`: clears the per-round sets and the
processing flag. -/
def start_next_round (g : GameState) : GameState :=
  { g with answered_players := ∅, timed_out_players := ∅, processing_answers := false }

/-- `GTAGameService.check_game_over`: over iff no player has `lives > 0`;
then each player's final score is reported. -/
def check_game_over (g : GameState) : Bool × Option (List (Nat × Int)) :=
  let active := g.players.filter (fun q => 0 < q.2.lives)
  if active.isEmpty then (true, some (g.players.map (fun q => (q.2.id, q.2.score))))
  else (false, none)

/-- `GTAGameService.have_all_players_answered`: the ids of players with
`lives > 0` form a subset of `answered_players`. -/
def have_all_players_answered (g : GameState) : Bool :=
  (g.players.filter (fun q => 0 < q.2.lives)).all (fun q => q.2.id ∈ g.answered_players)

/-- `GTAGameService.get_current_difficulty`.  The `random.choice` in the
final adaptive branch is modelled by the oracle `pick : Fin 3` indexing the
list `[EASY, MEDIUM, HARD]` it draws from. -/
def get_current_difficulty (g : GameState) (pick : Fin 3) : String :=
  if g.difficulty ≠ GameDifficulty.normal then difficultyStr g.difficulty
  else if g.easy_correct < EASY_THRESHOLD then difficultyStr GameDifficulty.easy
  else if g.medium_correct < MEDIUM_THRESHOLD then difficultyStr GameDifficulty.medium
  else if g.hard_correct < HARD_THRESHOLD then difficultyStr GameDifficulty.hard
  else
    match pick with
    | ⟨0, _⟩ => difficultyStr GameDifficulty.easy
    | ⟨1, _⟩ => difficultyStr GameDifficulty.medium
    | ⟨2, _⟩ => difficultyStr GameDifficulty.hard

/-- Errors that `GTAGameService.process_answer` can propagate: a `KeyError`
from `game.players[player_id]`, or a `DatabaseError` raised by
`repository.update_player_score`. -/
inductive AnswerError
  | keyError
  | dbError
deriving DecidableEq

/-- `GTAGameService.process_answer`.  `repoResult` is the collaborator
outcome of `repository.update_player_score` (`.error` models a raised
`DatabaseError`).  Returns the new state together with either the triple
`(is_correct, is_eliminated, new_high_score)` or the re-raised error; the
`except` clause removes the player from `answered_players` before
re-raising. -/
def process_answer (g : GameState) (player_id : Nat) (answer correct_answer : String)
    (pick : Fin 3) (repoResult : Except Unit (Option Int)) :
    GameState × Except AnswerError (Bool × Bool × Option Int) :=
  match lookupPlayer g.players player_id with
  | none =>
      ({ g with answered_players := g.answered_players.erase player_id },
        .error .keyError)
  | some player =>
      let is_correct := answer == correct_answer
      if player_id ∈ g.timed_out_players then
        (g, .ok (false, player.lives ≤ 0, none))
      else if is_correct then
        let current_diff := get_current_difficulty g pick
        let g1 :=
          if current_diff == difficultyStr GameDifficulty.easy then
            { g with easy_correct := g.easy_correct + 1,
                     players := updatePlayer g.players player_id
                       (fun p => { p with score := p.score + 1 }) }
          else if current_diff == difficultyStr GameDifficulty.medium then
            { g with medium_correct := g.medium_correct + 1,
                     players := updatePlayer g.players player_id
                       (fun p => { p with score := p.score + 2 }) }
          else if current_diff == difficultyStr GameDifficulty.hard then
            { g with hard_correct := g.hard_correct + 1,
                     players := updatePlayer g.players player_id
                       (fun p => { p with score := p.score + 3 }) }
          else g
        match repoResult with
        | .ok newHigh => (g1, .ok (true, false, newHigh))
        | .error _ =>
            ({ g1 with answered_players := g1.answered_players.erase player_id },
              .error .dbError)
      else
        if player_id ∉ g.timed_out_players then
          ({ g with players := updatePlayer g.players player_id
                      (fun p => { p with lives := p.lives - 1 }),
                    correct_streak := 0 },
            .ok (false, player.lives - 1 ≤ 0, none))
        else
          (g, .ok (false, player.lives ≤ 0, none))

/-- Net effect of one button press, i.e. `AnswerView.make_callback`'s
`button_callback` composed with `GTAQuizCog._handle_answer` (the two run
sequentially under the view's `processing_lock`). -/
inductive SubmitOutcome
  | alreadyAnswered
  | tooLate
  | busy
  | processed (is_correct is_eliminated : Bool) (new_high : Option Int)
  | errored
deriving DecidableEq

/-- One answer submission for an existing game.  Mirrors `button_callback`:
the `AlreadyAnswered` check, the `answered_players.add`, then
`_handle_answer` (timed-out check, `processing_answers` busy check,
`process_answer`, feedback stage), and the exception handler of
`button_callback`.

On every path where a response was already sent before
`interaction.response.defer()`, `defer()` raises `InteractionResponded` and
`button_callback`'s handler removes the player from `answered_players`
again.  Crucially this includes every processed path, not just the error
paths: after `process_answer` returns, `_handle_answer`'s feedback stage
reads `game_state.round_feedback` (and, on elimination,
`player.pending_high_score`) — attributes that `GameState`/`PlayerState` do
not declare and that no code ever assigns — so it raises `AttributeError`;
`_handle_answer`'s own handler responds with an error message, `defer()`
then raises `InteractionResponded`, and the player is removed.  The
`.processed` outcome therefore records what `process_answer` returned, but
the submitter never stays in `answered_players`. -/
def submitAnswer (g : GameState) (pid : Nat) (answer correct_answer : String)
    (pick : Fin 3) (repoResult : Except Unit (Option Int)) :
    GameState × SubmitOutcome :=
  if pid ∈ g.answered_players then (g, .alreadyAnswered)
  else
    let g1 := { g with answered_players := insert pid g.answered_players }
    if pid ∈ g1.timed_out_players then
      ({ g1 with answered_players := g1.answered_players.erase pid }, .tooLate)
    else if g1.processing_answers then
      ({ g1 with answered_players := g1.answered_players.erase pid }, .busy)
    else
      let g2 := { g1 with processing_answers := true }
      match process_answer g2 pid answer correct_answer pick repoResult with
      | (g3, .ok (c, e, hs)) =>
          let g4 := { g3 with processing_answers := false }
          ({ g4 with answered_players := g4.answered_players.erase pid },
            .processed c e hs)
      | (g3, .error _) =>
          let g4 := { g3 with processing_answers := false }
          ({ g4 with answered_players := g4.answered_players.erase pid }, .errored)

/-- The `for player in game.players.values()` loop of
`GTAGameService.handle_game_timeout`, threading the growing
`timed_out_players` set.  Returns the rewritten player dict, the final set,
and the collected `(player_name, remaining_lives)` list. -/
def timeoutLoop (answered : Finset Nat) :
    Finset Nat → List (Nat × PlayerState) →
    List (Nat × PlayerState) × Finset Nat × List (String × Int)
  | timedOut, [] => ([], timedOut, [])
  | timedOut, (pid, p) :: rest =>
      if 0 < p.lives ∧ pid ∉ answered ∧ pid ∉ timedOut then
        let p' := { p with lives := p.lives - 1 }
        let r := timeoutLoop answered (insert pid timedOut) rest
        ((pid, p') :: r.1, r.2.1, (p.name, p'.lives) :: r.2.2)
      else
        let r := timeoutLoop answered timedOut rest
        ((pid, p) :: r.1, r.2.1, r.2.2)

/-- `GTAGameService.handle_game_timeout`: every player with `lives > 0` who
is in neither `answered_players` nor `timed_out_players` loses one life,
is added to `timed_out_players`, and is reported; `correct_streak` is reset
whenever at least one player is penalised. -/
def handle_game_timeout (g : GameState) : GameState × List (String × Int) :=
  let r := timeoutLoop g.answered_players g.timed_out_players g.players
  ({ g with players := r.1,
            timed_out_players := r.2.1,
            correct_streak := if r.2.2.isEmpty then g.correct_streak else 0 },
    r.2.2)

/-! ## `kusogaki_bot/services/game_manager.py` (`GameManager`)

The older round engine driven by `cogs/gta_quiz.py`.  A reaction event is a
triple `(user, choiceNum, isBot)`: the reacting user id, the digit parsed
from the emoji, and the discord bot flag checked by `check_reaction`.
Real-time waits are modelled by the finite list of reaction events that
arrive before the round deadline; an empty list means the waits only ever
time out. -/

namespace GM

/-- `Player` dataclass from `models/game_state.py`. -/
structure Player where
  hp : Int
  correct_guesses : Nat := 0
deriving DecidableEq

/-- `GameState` dataclass from `models/game_state.py` (logic-bearing fields). -/
structure GameState where
  channel_id : Nat
  players : List (Nat × Player)
  is_active : Bool := false
deriving DecidableEq

/-- `GameConfig.CHOICES`. -/
def CHOICES : Nat := 4

/-- Dict lookup in `game.players`. -/
def lookupGM (ps : List (Nat × Player)) (pid : Nat) : Option Player :=
  (ps.find? (fun q => q.1 == pid)).map (·.2)

/-- In-place mutation of `game.players[pid]`. -/
def updateGM (ps : List (Nat × Player)) (pid : Nat) (f : Player → Player) :
    List (Nat × Player) :=
  ps.map (fun q => if q.1 = pid then (q.1, f q.2) else q)

/-- `RoundData` from `models/round_data.py`; of its `players` dict only the
key set is read by the loop (`active_players`). -/
structure RoundData where
  correct_title : String
  choices : List String
  activeIds : Finset Nat
deriving DecidableEq

/-- `GameManager.check_reaction` for a game that exists: active game, human
user who is a player, has not answered this round, emoji digit in
`1..CHOICES`. -/
def check_reaction (g : GameState) (answered : Finset Nat)
    (user choiceNum : Nat) (isBot : Bool) : Bool :=
  g.is_active && !isBot && (lookupGM g.players user).isSome &&
    (user ∉ answered : Bool) && (1 ≤ choiceNum && choiceNum ≤ CHOICES)

/-- `GameManager.process_wrong_answer`: `hp -= 1` when the player exists
(the function always returns `False` to its caller). -/
def process_wrong_answer (g : GameState) (user_id : Nat) : GameState :=
  if (lookupGM g.players user_id).isSome then
    { g with players := updateGM g.players user_id (fun p => { p with hp := p.hp - 1 }) }
  else g

/-- The answer-collection `while` loop of `GameManager.run_game`: state is
`(game, answered_this_round, correct_answer_given, any_answer_given)`.
Reactions failing `check_reaction` never resolve the wait and are skipped;
once the guard fails (correct answer given, or all active players answered)
remaining events are ignored. -/
def collectAnswers (rd : RoundData) :
    GameState → Finset Nat → Bool → Bool → List (Nat × Nat × Bool) →
    GameState × Finset Nat × Bool × Bool
  | g, answered, correctGiven, anyGiven, [] => (g, answered, correctGiven, anyGiven)
  | g, answered, correctGiven, anyGiven, (user, choiceNum, isBot) :: rest =>
      if correctGiven || !(answered.card < rd.activeIds.card : Bool) then
        (g, answered, correctGiven, anyGiven)
      else if check_reaction g answered user choiceNum isBot then
        let answered' := insert user answered
        let selected := rd.choices.getD (choiceNum - 1) ""
        if selected == rd.correct_title then
          let f := fun (p : Player) => { p with correct_guesses := p.correct_guesses + 1 }
          let g' := { g with players := updateGM g.players user f }
          collectAnswers rd g' answered' true true rest
        else
          collectAnswers rd (process_wrong_answer g user) answered' correctGiven true rest
      else
        collectAnswers rd g answered correctGiven anyGiven rest

/-- `GameManager.end_game` restricted to the game itself: deactivates it
(the registry/message cleanup acts on the collaborator side). -/
def end_game (g : GameState) : GameState :=
  { g with is_active := false }

/-- Outcome of one `run_game` iteration. -/
inductive RoundOutcome
  | abortedNoAnswer
  | finished (is_game_over : Bool)
deriving DecidableEq

/-- One iteration of the `while game_state.is_active` loop of
`GameManager.run_game`: collect answers; when no answer at all was given the
`ROUND_TIMEOUT` branch ends the game and returns (with `GUESS_TIME` and
`ROUND_TIMEOUT` both 15s in `GameConfig`, the no-answer wait always reaches
that branch); otherwise every active player who did not answer gets
`process_wrong_answer`, and game over is `all(hp <= 0)`.  The unanswered
set is folded in ascending id order (one admissible iteration order of the
python set). -/
def run_round (g : GameState) (rd : RoundData) (events : List (Nat × Nat × Bool)) :
    GameState × RoundOutcome :=
  let c := collectAnswers rd g ∅ false false events
  let g1 := c.1
  let anyGiven := c.2.2.2
  if !anyGiven then
    (end_game g1, .abortedNoAnswer)
  else
    let unanswered := rd.activeIds \ c.2.1
    let g2 := (unanswered.sort (· ≤ ·)).foldl process_wrong_answer g1
    let isOver := g2.players.all (fun q => q.2.hp ≤ 0)
    (g2, .finished isOver)

/-- `GameManager.check_game_continuation`. -/
def check_game_continuation (g : GameState) : Bool :=
  !g.players.isEmpty && g.is_active

/-- The `while game_state.is_active` loop of `GameManager.run_game`, fed
with the round inputs (prepared round data plus the reaction events of that
round).  The `finally` clause always runs `end_game`; an exhausted input
list models the game task being torn down. -/
def run_game : GameState → List (RoundData × List (Nat × Nat × Bool)) → GameState
  | g, [] => end_game g
  | g, (rd, events) :: rest =>
      if !g.is_active then end_game g
      else
        match run_round g rd events with
        | (g', .abortedNoAnswer) => end_game g'
        | (g', .finished isOver) =>
            if isOver || !check_game_continuation g' then end_game g'
            else run_game g' rest

end GM

/-! ## `kusogaki_bot/shared/services/image_preloader.py` (`ImagePreloader`)

Per-category state of the prefetch cache.  The provider used by the bot is
`GTARepository`, which has `get_images_batch`, so `_preload_batch` always
takes the batch branch; the database query is the collaborator oracle
`fetch excludeIds batchSize` (a `SELECT ... WHERE id NOT IN excludeIds
LIMIT batchSize`, hence rows with pairwise-distinct ids none of which is in
`excludeIds`).

Two trace models are given.  `runPool` runs refills atomically: each
refill's exclusion-set read, fetch and append complete with no other refill
in between (serialized refills).  The code does NOT guarantee this: inside
`_preload_batch` the task suspends at `await image_service.preload_images`
(line 112) between the `used_images`-based fetch (line 93) and the append
loop (lines 114-121); `_preload_lock` is created but never acquired, the
`_preload_tasks` guard only prevents two background tasks, and the
synchronous empty-queue refill inside `get_next_image` has no guard at all.
`runPoolConc` exposes that suspension point: a refill is split into its
fetch step and its append step, and steps of different refills may
interleave. -/

namespace Pool

/-- `GTAImage` row fields used by the preloader. -/
structure ImageRec where
  id : Nat
  link : String
  anime_name : String
deriving DecidableEq

/-- A cache entry `{'image': image, 'options': options}`. -/
abbrev Entry := ImageRec × List String

/-- One category's slice of the `ImagePreloader` state. -/
structure PreloaderState where
  preloaded_images : List Entry
  used_images : Finset Nat
  preload_count : Nat
deriving DecidableEq

/-- `self._batch_size = max(5, preload_count // 2)`. -/
def batch_size (preload_count : Nat) : Nat := max 5 (preload_count / 2)

/-- The append loop of `_preload_batch`: stops once the cache is full,
otherwise marks each id used and appends the entry. -/
def appendLoop : PreloaderState → List Entry → PreloaderState
  | st, [] => st
  | st, e :: rest =>
      if st.preload_count ≤ st.preloaded_images.length then st
      else
        appendLoop
          { st with used_images := insert e.1.id st.used_images,
                    preloaded_images := st.preloaded_images ++ [e] }
          rest

/-- `ImagePreloader._preload_batch` (batch-provider branch). -/
def preload_batch (st : PreloaderState) (fetch : Finset Nat → Nat → List Entry) :
    PreloaderState :=
  if st.preload_count ≤ st.preloaded_images.length then st
  else appendLoop st (fetch st.used_images (batch_size st.preload_count))

/-- `ImagePreloader.get_next_image`: synchronous refill when the cache is
empty, then `pop(0)`. -/
def get_next_image (st : PreloaderState) (fetch : Finset Nat → Nat → List Entry) :
    PreloaderState × Option Entry :=
  let st1 := if st.preloaded_images.isEmpty then preload_batch st fetch else st
  match st1.preloaded_images with
  | [] => (st1, none)
  | e :: rest => ({ st1 with preloaded_images := rest }, some e)

/-- `ImagePreloader.cleanup_category`: clear `used_images` and the queue
together, then refill once. -/
def cleanup_category (st : PreloaderState) (fetch : Finset Nat → Nat → List Entry) :
    PreloaderState :=
  preload_batch { st with used_images := ∅, preloaded_images := [] } fetch

/-- Pool operations that can run between two resets of a category, in the
serialized-refill model: `backgroundPreload` is a `_preload_batch` whose
fetch and append run back to back with no other refill interleaved. -/
inductive PoolOp
  | backgroundPreload
  | getNext
deriving DecidableEq

/-- One serialized pool operation; `handed` accumulates the ids returned by
`get_next_image`.  Refills are atomic here — see `runPoolConc` for the
machine that exposes the code's suspension point inside `_preload_batch`. -/
def stepPool (fetch : Finset Nat → Nat → List Entry) :
    PreloaderState × List Nat → PoolOp → PreloaderState × List Nat
  | (st, handed), .backgroundPreload => (preload_batch st fetch, handed)
  | (st, handed), .getNext =>
      match get_next_image st fetch with
      | (st', none) => (st', handed)
      | (st', some e) => (st', handed ++ [e.1.id])

/-- The category state right after `__init__` (or right after the clearing
part of a reset): empty queue, empty used set, target size 20. -/
def initPool : PreloaderState :=
  { preloaded_images := [], used_images := ∅, preload_count := 20 }

/-- Run a reset-free operation sequence from the fresh state. -/
def runPool (fetch : Finset Nat → Nat → List Entry) (ops : List PoolOp) :
    PreloaderState × List Nat :=
  ops.foldl (stepPool fetch) (initPool, [])

/-- Contract of the database fetch: returned rows have pairwise-distinct ids
and exclude `excludeIds`. -/
def FetchOk (fetch : Finset Nat → Nat → List Entry) : Prop :=
  ∀ ex n, ((fetch ex n).map (fun e => e.1.id)).Nodup ∧
    ∀ e ∈ fetch ex n, e.1.id ∉ ex

/-- State of the event-level pool machine: the category state, the batches
of refills currently suspended at the `await image_service.preload_images`
point (fetched, not yet appended), and the handed-out ids. -/
structure PoolWorld where
  st : PreloaderState
  pending : List (List Entry)
  handed : List Nat
deriving DecidableEq

/-- Scheduler events of the pool.  `fetchStep`: a refill (a background task,
or the synchronous `_preload_batch` call inside `get_next_image`) passes the
fullness check, reads `used_images`, performs the database fetch and
suspends at the image-preload await.  `appendStep`: the oldest suspended
refill resumes and runs its append loop.  `popStep`: a `get_next_image`
whose queue is non-empty pops the head. -/
inductive PoolEv
  | fetchStep
  | appendStep
  | popStep
deriving DecidableEq

/-- One scheduler event. -/
def stepEv (fetch : Finset Nat → Nat → List Entry) (w : PoolWorld) :
    PoolEv → PoolWorld
  | .fetchStep =>
      if w.st.preload_count ≤ w.st.preloaded_images.length then w
      else { w with pending :=
        w.pending ++ [fetch w.st.used_images (batch_size w.st.preload_count)] }
  | .appendStep =>
      match w.pending with
      | [] => w
      | b :: rest => { w with st := appendLoop w.st b, pending := rest }
  | .popStep =>
      match w.st.preloaded_images with
      | [] => w
      | e :: rest =>
          { w with st := { w.st with preloaded_images := rest },
                   handed := w.handed ++ [e.1.id] }

/-- Run a reset-free event sequence from the fresh category state. -/
def runPoolConc (fetch : Finset Nat → Nat → List Entry) (evs : List PoolEv) :
    PoolWorld :=
  evs.foldl (stepEv fetch) { st := initPool, pending := [], handed := [] }

end Pool

/-! ## Leaderboard of `kusogaki_bot/features/guess_the_anime/data.py`

`LeaderboardEntry` rows of the `gta_game_leaderboard` table.  The source
stores the user id as `str(user_id)` (an injective encoding); the model
keeps the `Nat`.  `ORDER BY highest_score DESC` leaves the relative order
of equal scores unspecified; the model fixes one admissible order with a
stable insertion sort. -/

namespace LB

/-- A `gta_game_leaderboard` row. -/
structure LBEntry where
  user : Nat
  display_name : String
  highest_score : Int
  place : Nat
deriving DecidableEq

/-- Descending order on `highest_score`. -/
def rankRel (a b : LBEntry) : Prop := b.highest_score ≤ a.highest_score

instance : DecidableRel rankRel := fun a b =>
  inferInstanceAs (Decidable (b.highest_score ≤ a.highest_score))

instance : IsTotal LBEntry rankRel :=
  ⟨fun a b => le_total b.highest_score a.highest_score⟩

instance : IsTrans LBEntry rankRel :=
  ⟨fun _ _ _ h1 h2 => le_trans h2 h1⟩

/-- The `for i, e in enumerate(entries, 1): e.place = i` loop of
`GTARepository._update_rankings`. -/
def assignPlaces : Nat → List LBEntry → List LBEntry
  | _, [] => []
  | i, e :: rest => { e with place := i } :: assignPlaces (i + 1) rest

/-- `GTARepository._update_rankings`: re-sort the whole table by
`highest_score` descending and assign 1-based places. -/
def update_rankings (db : List LBEntry) : List LBEntry :=
  assignPlaces 1 (List.insertionSort rankRel db)

/-- `GTARepository.update_player_score`: insert a missing entry with
`place=0` and recompute all rankings, update an existing entry when
`score > highest_score` and recompute, otherwise leave the table unchanged;
returns `entry.highest_score` when a new high score was recorded and `None`
otherwise. -/
def update_player_score (db : List LBEntry) (user_id : Nat) (display_name : String)
    (score : Int) : List LBEntry × Option Int :=
  match db.find? (fun e => e.user == user_id) with
  | some entry =>
      if entry.highest_score < score then
        let db1 := db.map (fun e =>
          if e.user == user_id then
            { e with highest_score := score, display_name := display_name }
          else e)
        (update_rankings db1, some score)
      else (db, none)
  | none =>
      let db1 := db ++
        [{ user := user_id, display_name := display_name, highest_score := score,
           place := 0 }]
      (update_rankings db1, some score)

end LB

/-! ## Concrete instances used by counterexamples and witnesses -/

/-- A fixed draw for the difficulty oracle. -/
def pick0 : Fin 3 := ⟨0, by decide⟩

/-- An easy-mode game in channel 1: creator alice (id 10) plus bob (id 20),
started — exactly the state after `create_game`, a join, and the countdown
calling `start_game`. -/
def twoPlayerGame : GameState :=
  start_game (add_player (create_game 1 10 GameDifficulty.easy "alice") 20 "bob").1

/-- The state right after alice's correct-answer button press in the first
round of `twoPlayerGame` (score recorded, then the feedback-stage failure
strips her from `answered_players` again). -/
def afterCorrect : GameState :=
  (submitAnswer twoPlayerGame 10 "Naruto" "Naruto" pick0 (.ok none)).1

/-- The state right after alice's wrong-answer button press in the first
round of `twoPlayerGame`. -/
def afterWrong : GameState :=
  (submitAnswer twoPlayerGame 10 "Wrong" "Right" pick0 (.ok none)).1

/-- A well-formed mid-game state with an eliminated player: alice at 0
lives, bob alive, per-round sets cleared exactly as `start_next_round`
leaves them.  This is an input-level state for exercising the cited
operations: in the deployed features engine no mid-game state is reachable
at all, because `_run_game` reads the missing `round_feedback` attribute
(cog.py:484) and aborts before any answer view exists. -/
def eliminatedAliceGame : GameState :=
  { channel_id := 1
    creator_id := 10
    players := [(10, { id := 10, name := "alice", lives := 0, score := 0 }),
                (20, { id := 20, name := "bob", lives := 3, score := 0 })]
    difficulty := GameDifficulty.easy
    is_active := true }

/-- An adaptive-mode (difficulty "normal") lobby game. -/
def normalGame : GameState :=
  create_game 2 10 GameDifficulty.normal "alice"

/-- A concrete database fetch obeying the `FetchOk` contract: one image of
id 0 until that id is excluded. -/
def fetchOne : Finset Nat → Nat → List Pool.Entry :=
  fun ex _ => if 0 ∈ ex then [] else [(⟨0, "l", "n"⟩, ["w"])]

/-- A two-player `GameManager` game, started. -/
def gmTwoPlayer : GM.GameState :=
  { channel_id := 1, players := [(10, { hp := 3 }), (20, { hp := 3 })], is_active := true }

/-- Round data for `gmTwoPlayer`. -/
def gmRound : GM.RoundData :=
  { correct_title := "T", choices := ["A", "B", "T", "C"], activeIds := {10, 20} }

end Kusogaki

namespace Kusogaki

namespace Pool

/-- The ids currently sitting in the queue. -/
def pooledIds (st : PreloaderState) : List Nat := st.preloaded_images.map (fun e => e.1.id)

/-- Invariant tying the queue, the used-id set and the ids already handed
out by `get_next_image`: handed-out ids are pairwise distinct, everything
handed out or queued is marked used, the queue holds no duplicate id, and
no queued id was already handed out. -/
structure PoolInv (st : PreloaderState) (handed : List Nat) : Prop where
  handed_nodup : handed.Nodup
  handed_used : ∀ i ∈ handed, i ∈ st.used_images
  pool_used : ∀ i ∈ pooledIds st, i ∈ st.used_images
  pool_nodup : (pooledIds st).Nodup
  disj : ∀ i ∈ handed, i ∉ pooledIds st

end Pool

/-! ## Helper lemmas -/

lemma timeoutLoop_mono (answered : Finset Nat) (ps : List (Nat × PlayerState)) :
    ∀ t : Finset Nat, t ⊆ (timeoutLoop answered t ps).2.1 := by
  induction ps with
  | nil => intro t; simp [timeoutLoop]
  | cons q rest ih =>
      intro t
      obtain ⟨pid, p⟩ := q
      simp only [timeoutLoop]
      split
      · exact (Finset.subset_insert pid t).trans (ih (insert pid t))
      · exact ih t

lemma timeoutLoop_idem (answered : Finset Nat) (ps : List (Nat × PlayerState)) :
    ∀ (t u : Finset Nat), (timeoutLoop answered t ps).2.1 ⊆ u →
      timeoutLoop answered u (timeoutLoop answered t ps).1 =
        ((timeoutLoop answered t ps).1, u, ([] : List (String × Int))) := by
  induction ps with
  | nil => intro t u h; simp [timeoutLoop]
  | cons q rest ih =>
      obtain ⟨pid, p⟩ := q
      intro t u h
      simp only [timeoutLoop] at h ⊢
      by_cases hc : 0 < p.lives ∧ pid ∉ answered ∧ pid ∉ t
      · rw [if_pos hc] at h ⊢
        have hmem : pid ∈ u := by
          apply h
          exact timeoutLoop_mono answered rest (insert pid t) (Finset.mem_insert_self pid t)
        simp only [timeoutLoop]
        rw [if_neg (by simp [hmem])]
        rw [ih (insert pid t) u h]
      · rw [if_neg hc] at h ⊢
        simp only [timeoutLoop]
        have hc2 : ¬(0 < p.lives ∧ pid ∉ answered ∧ pid ∉ u) := by
          intro ⟨h1, h2, h3⟩
          exact hc ⟨h1, h2, fun hmem => h3 (h (timeoutLoop_mono answered rest t hmem))⟩
        rw [if_neg hc2]
        rw [ih t u h]

lemma process_answer_ok_answered (g : GameState) (pid : Nat) (a c : String) (p : Fin 3)
    (r : Except Unit (Option Int)) (g' : GameState) (res : Bool × Bool × Option Int)
    (h : process_answer g pid a c p r = (g', .ok res)) :
    g'.answered_players = g.answered_players := by
  simp only [process_answer] at h
  repeat' split at h
  all_goals simp only [Prod.mk.injEq] at h
  all_goals obtain ⟨h4, h5⟩ := h
  all_goals
    first
      | (subst h4; rfl)
      | exact Except.noConfusion h5

lemma processed_strips_answered (g : GameState) (pid : Nat) (a c : String) (p : Fin 3)
    (r : Except Unit (Option Int)) (g' : GameState) (cc e : Bool) (hs : Option Int)
    (h : submitAnswer g pid a c p r = (g', .processed cc e hs)) :
    pid ∉ g.answered_players ∧ g'.answered_players = g.answered_players := by
  simp only [submitAnswer] at h
  by_cases h0 : pid ∈ g.answered_players
  · rw [if_pos h0] at h
    simp at h
  · rw [if_neg h0] at h
    split_ifs at h with h1 h2
    · simp at h
    · simp at h
    · cases hpa : process_answer
        { g with answered_players := insert pid g.answered_players, processing_answers := true }
        pid a c p r with
      | mk g3 res =>
          rw [hpa] at h
          cases res with
          | ok t =>
              obtain ⟨cc', e', hs'⟩ := t
              simp only [] at h
              obtain ⟨rfl, -⟩ := Prod.mk.injEq .. ▸ h
              have ha := process_answer_ok_answered _ _ _ _ _ _ _ _ hpa
              simp only [] at ha
              refine ⟨h0, ?_⟩
              show (g3.answered_players.erase pid) = g.answered_players
              rw [ha]
              exact Finset.erase_insert h0
          | error ae =>
              simp at h

lemma timeoutLoop_lives_nonneg (answered : Finset Nat) (ps : List (Nat × PlayerState)) :
    ∀ t : Finset Nat, (∀ q ∈ ps, 0 ≤ q.2.lives) →
      ∀ q ∈ (timeoutLoop answered t ps).1, 0 ≤ q.2.lives := by
  induction ps with
  | nil => intro t _ q hq; simp [timeoutLoop] at hq
  | cons e rest ih =>
      intro t hall q hq
      obtain ⟨pid, p⟩ := e
      simp only [timeoutLoop] at hq
      split at hq
      · rename_i hc
        rcases List.mem_cons.1 hq with rfl | hq'
        · simp only []
          omega
        · exact ih (insert pid t) (fun q' hq' => hall q' (List.mem_cons_of_mem _ hq')) q hq'
      · rcases List.mem_cons.1 hq with rfl | hq'
        · exact hall _ (List.mem_cons_self _ _)
        · exact ih t (fun q' hq' => hall q' (List.mem_cons_of_mem _ hq')) q hq'

lemma process_answer_players (g : GameState) (pid : Nat) (a c : String) (p : Fin 3)
    (r : Except Unit (Option Int)) :
    (process_answer g pid a c p r).1.players = g.players ∨
    (∃ w : Int, (w = 1 ∨ w = 2 ∨ w = 3) ∧
      (process_answer g pid a c p r).1.players =
        updatePlayer g.players pid (fun q => { q with score := q.score + w })) ∨
    (process_answer g pid a c p r).1.players =
      updatePlayer g.players pid (fun q => { q with lives := q.lives - 1 }) := by
  simp only [process_answer]
  repeat' split
  all_goals
    first
      | exact Or.inl rfl
      | exact Or.inr (Or.inl ⟨1, Or.inl rfl, rfl⟩)
      | exact Or.inr (Or.inl ⟨2, Or.inr (Or.inl rfl), rfl⟩)
      | exact Or.inr (Or.inl ⟨3, Or.inr (Or.inr rfl), rfl⟩)
      | exact Or.inr (Or.inr rfl)

lemma submitAnswer_players (g : GameState) (pid : Nat) (a c : String) (p : Fin 3)
    (r : Except Unit (Option Int)) :
    (submitAnswer g pid a c p r).1.players = g.players ∨
    (∃ w : Int, (w = 1 ∨ w = 2 ∨ w = 3) ∧
      (submitAnswer g pid a c p r).1.players =
        updatePlayer g.players pid (fun q => { q with score := q.score + w })) ∨
    (submitAnswer g pid a c p r).1.players =
      updatePlayer g.players pid (fun q => { q with lives := q.lives - 1 }) := by
  simp only [submitAnswer]
  split
  · exact Or.inl rfl
  · split
    · exact Or.inl rfl
    · split
      · exact Or.inl rfl
      · have hp := process_answer_players
          { g with answered_players := insert pid g.answered_players,
                   processing_answers := true } pid a c p r
        cases hpa : process_answer
            { g with answered_players := insert pid g.answered_players,
                     processing_answers := true } pid a c p r with
        | mk g3 res =>
            rw [hpa] at hp
            cases res with
            | ok t =>
                obtain ⟨c1, e1, hs1⟩ := t
                simpa using hp
            | error ae =>
                simpa using hp

end Kusogaki

namespace Kusogaki

lemma have_all_false_of_unanswered (g : GameState) (q : Nat × PlayerState)
    (hq : q ∈ g.players) (hlives : 0 < q.2.lives) (hna : q.2.id ∉ g.answered_players) :
    have_all_players_answered g = false := by
  unfold have_all_players_answered
  rw [List.all_eq_false]
  refine ⟨q, List.mem_filter.2 ⟨hq, by simpa using hlives⟩, by simpa using hna⟩

lemma timeoutLoop_penalizes (answered : Finset Nat) (ps : List (Nat × PlayerState)) :
    ∀ t : Finset Nat, (ps.map Prod.fst).Nodup →
      ∀ k pl, (k, pl) ∈ ps → 0 < pl.lives → k ∉ answered → k ∉ t →
        (k, { pl with lives := pl.lives - 1 }) ∈ (timeoutLoop answered t ps).1 := by
  induction ps with
  | nil => intro t _ k pl hmem; simp at hmem
  | cons e rest ih =>
      intro t hnd k pl hmem hlives hka hkt
      obtain ⟨pid, p⟩ := e
      simp only [List.map_cons, List.nodup_cons] at hnd
      rcases List.mem_cons.1 hmem with heq | hmem'
      · obtain ⟨rfl, rfl⟩ := Prod.mk.injEq .. ▸ heq
        simp only [timeoutLoop]
        rw [if_pos (show 0 < pl.lives ∧ k ∉ answered ∧ k ∉ t from ⟨hlives, hka, hkt⟩)]
        exact List.mem_cons_self _ _
      · have hne : pid ≠ k := by
          intro hcontra
          exact hnd.1 (hcontra ▸ List.mem_map_of_mem Prod.fst hmem')
        have hki : k ∉ insert pid t := by
          intro hm
          rcases Finset.mem_insert.1 hm with h1 | h1
          · exact hne h1.symm
          · exact hkt h1
        simp only [timeoutLoop]
        split
        · exact List.mem_cons_of_mem _ (ih (insert pid t) hnd.2 k pl hmem' hlives hka hki)
        · exact List.mem_cons_of_mem _ (ih t hnd.2 k pl hmem' hlives hka hkt)

lemma lookup_updatePlayer (ps : List (Nat × PlayerState)) (pid : Nat)
    (f : PlayerState → PlayerState) :
    lookupPlayer (updatePlayer ps pid f) pid = (lookupPlayer ps pid).map f := by
  induction ps with
  | nil => rfl
  | cons q rest ih =>
      by_cases hq : q.1 = pid
      · simp [lookupPlayer, updatePlayer, List.find?_cons, hq]
      · simp only [lookupPlayer, updatePlayer, List.map_cons, if_neg hq] at ih ⊢
        rw [List.find?_cons_of_neg _ (by simpa using hq), List.find?_cons_of_neg _ (by simpa using hq)]
        exact ih

lemma current_difficulty_mem (g : GameState) (p : Fin 3) :
    get_current_difficulty g p = "easy" ∨ get_current_difficulty g p = "medium" ∨
      get_current_difficulty g p = "hard" := by
  unfold get_current_difficulty
  by_cases h : g.difficulty = GameDifficulty.normal
  · rw [if_neg (by simp [h])]
    split_ifs
    · exact Or.inl rfl
    · exact Or.inr (Or.inl rfl)
    · exact Or.inr (Or.inr rfl)
    · rcases p with ⟨v, hv⟩
      interval_cases v
      · exact Or.inl rfl
      · exact Or.inr (Or.inl rfl)
      · exact Or.inr (Or.inr rfl)
  · rw [if_pos h]
    cases hd : g.difficulty
    · exact Or.inl rfl
    · exact Or.inr (Or.inl rfl)
    · exact Or.inr (Or.inr rfl)
    · exact absurd hd h

lemma process_answer_db_failure (g : GameState) (pid : Nat) (a c : String) (p : Fin 3)
    (pl : PlayerState) (hfind : lookupPlayer g.players pid = some pl)
    (hnt : pid ∉ g.timed_out_players) (hac : a = c) :
    (process_answer g pid a c p (.error ())).2 = .error .dbError ∧
    (process_answer g pid a c p (.error ())).1.answered_players =
      g.answered_players.erase pid ∧
    (process_answer g pid a c p (.error ())).1.timed_out_players = g.timed_out_players ∧
    (process_answer g pid a c p (.error ())).1.easy_correct +
      (process_answer g pid a c p (.error ())).1.medium_correct +
      (process_answer g pid a c p (.error ())).1.hard_correct =
      g.easy_correct + g.medium_correct + g.hard_correct + 1 ∧
    (∃ w : Int, (w = 1 ∨ w = 2 ∨ w = 3) ∧
      lookupPlayer (process_answer g pid a c p (.error ())).1.players pid =
        some { pl with score := pl.score + w }) := by
  simp only [process_answer, hfind]
  rw [if_neg hnt, if_pos (show (a == c) = true by simp [hac])]
  rcases current_difficulty_mem g p with hd | hd | hd
  · rw [hd, if_pos (by decide)]
    refine ⟨rfl, rfl, rfl, ?_, 1, Or.inl rfl, ?_⟩
    · dsimp only
      omega
    · dsimp only
      rw [lookup_updatePlayer, hfind]
      rfl
  · rw [hd, if_neg (by decide), if_pos (by decide)]
    refine ⟨rfl, rfl, rfl, ?_, 2, Or.inr (Or.inl rfl), ?_⟩
    · dsimp only
      omega
    · dsimp only
      rw [lookup_updatePlayer, hfind]
      rfl
  · rw [hd, if_neg (by decide), if_neg (by decide), if_pos (by decide)]
    refine ⟨rfl, rfl, rfl, ?_, 3, Or.inr (Or.inr rfl), ?_⟩
    · dsimp only
      omega
    · dsimp only
      rw [lookup_updatePlayer, hfind]
      rfl

end Kusogaki

namespace Kusogaki

namespace Pool

lemma appendLoop_inv (batch : List Entry) :
    ∀ (st : PreloaderState) (handed : List Nat), PoolInv st handed →
      (batch.map (fun e => e.1.id)).Nodup → (∀ e ∈ batch, e.1.id ∉ st.used_images) →
      PoolInv (appendLoop st batch) handed := by
  induction batch with
  | nil => intro st handed h _ _; exact h
  | cons e rest ih =>
      intro st handed h hnd hfresh
      simp only [List.map_cons, List.nodup_cons] at hnd
      simp only [appendLoop]
      split
      · exact h
      · have hefresh : e.1.id ∉ st.used_images := hfresh e (List.mem_cons_self _ _)
        have hpool : ∀ st2 : PreloaderState, st2.preloaded_images = st.preloaded_images ++ [e] →
            pooledIds st2 = pooledIds st ++ [e.1.id] := by
          intro st2 hst2
          simp [pooledIds, hst2]
        apply ih
        · refine ⟨h.handed_nodup, ?_, ?_, ?_, ?_⟩
          · intro i hi
            exact Finset.mem_insert_of_mem (h.handed_used i hi)
          · intro i hi
            rw [hpool _ rfl] at hi
            rcases List.mem_append.1 hi with hi' | hi'
            · exact Finset.mem_insert_of_mem (h.pool_used i hi')
            · simp only [List.mem_singleton] at hi'
              exact hi' ▸ Finset.mem_insert_self _ _
          · rw [hpool _ rfl]
            refine List.Nodup.append h.pool_nodup (List.nodup_singleton _) ?_
            intro i hi
            simp only [List.mem_singleton]
            intro hcontra
            exact hefresh (hcontra ▸ h.pool_used i hi)
          · intro i hi
            rw [hpool _ rfl]
            intro hcontra
            rcases List.mem_append.1 hcontra with hi' | hi'
            · exact h.disj i hi hi'
            · simp only [List.mem_singleton] at hi'
              exact hefresh (hi' ▸ h.handed_used i hi)
        · exact hnd.2
        · intro e' he' hcontra
          rcases Finset.mem_insert.1 hcontra with h1 | h1
          · exact hnd.1 (h1 ▸ List.mem_map_of_mem (fun x => x.1.id) he')
          · exact hfresh e' (List.mem_cons_of_mem _ he') h1

lemma preload_batch_inv (st : PreloaderState) (handed : List Nat)
    (fetch : Finset Nat → Nat → List Entry) (hf : FetchOk fetch)
    (h : PoolInv st handed) : PoolInv (preload_batch st fetch) handed := by
  unfold preload_batch
  split
  · exact h
  · exact appendLoop_inv _ st handed h (hf st.used_images _).1 (hf st.used_images _).2

lemma stepPool_inv (fetch : Finset Nat → Nat → List Entry) (hf : FetchOk fetch)
    (p : PreloaderState × List Nat) (op : PoolOp) (h : PoolInv p.1 p.2) :
    PoolInv (stepPool fetch p op).1 (stepPool fetch p op).2 := by
  obtain ⟨st, handed⟩ := p
  cases op with
  | backgroundPreload => exact preload_batch_inv st handed fetch hf h
  | getNext =>
      simp only [stepPool, get_next_image]
      have h1 : PoolInv (if st.preloaded_images.isEmpty then preload_batch st fetch else st)
          handed := by
        split
        · exact preload_batch_inv st handed fetch hf h
        · exact h
      set st1 := if st.preloaded_images.isEmpty then preload_batch st fetch else st with hst1
      cases hq : st1.preloaded_images with
      | nil => simpa [hq] using h1
      | cons e rest =>
          simp only [hq]
          have hids : pooledIds st1 = e.1.id :: pooledIds { st1 with preloaded_images := rest } := by
            simp [pooledIds, hq]
          have hnd := h1.pool_nodup
          rw [hids] at hnd
          have hehanded : e.1.id ∉ handed := by
            intro hcontra
            exact h1.disj e.1.id hcontra (by rw [hids]; exact List.mem_cons_self _ _)
          refine ⟨?_, ?_, ?_, ?_, ?_⟩
          · refine List.Nodup.append h1.handed_nodup (List.nodup_singleton _) ?_
            intro i hi
            simp only [List.mem_singleton]
            intro hcontra
            exact hehanded (hcontra ▸ hi)
          · intro i hi
            rcases List.mem_append.1 hi with hi' | hi'
            · exact h1.handed_used i hi'
            · simp only [List.mem_singleton] at hi'
              exact hi' ▸ h1.pool_used e.1.id (by rw [hids]; exact List.mem_cons_self _ _)
          · intro i hi
            exact h1.pool_used i (by rw [hids]; exact List.mem_cons_of_mem _ hi)
          · exact (List.nodup_cons.1 hnd).2
          · intro i hi
            rcases List.mem_append.1 hi with hi' | hi'
            · intro hcontra
              exact h1.disj i hi' (by rw [hids]; exact List.mem_cons_of_mem _ hcontra)
            · simp only [List.mem_singleton] at hi'
              subst hi'
              exact (List.nodup_cons.1 hnd).1

lemma foldPool_inv (fetch : Finset Nat → Nat → List Entry) (hf : FetchOk fetch) :
    ∀ (ops : List PoolOp) (p : PreloaderState × List Nat), PoolInv p.1 p.2 →
      PoolInv (ops.foldl (stepPool fetch) p).1 (ops.foldl (stepPool fetch) p).2 := by
  intro ops
  induction ops with
  | nil => intro p h; exact h
  | cons op rest ih =>
      intro p h
      exact ih (stepPool fetch p op) (stepPool_inv fetch hf p op h)

lemma initPool_inv : PoolInv initPool [] := by
  refine ⟨List.nodup_nil, ?_, ?_, ?_, ?_⟩ <;> simp [initPool, pooledIds]

lemma runPool_inv (fetch : Finset Nat → Nat → List Entry) (hf : FetchOk fetch)
    (ops : List PoolOp) :
    PoolInv (runPool fetch ops).1 (runPool fetch ops).2 :=
  foldPool_inv fetch hf ops (initPool, []) initPool_inv

/-- The serialized model is the projection of the event machine in which a
refill's fetch step is immediately followed by its append step: on a world
with no other refill pending, that pair of events is exactly
`_preload_batch` run atomically. -/
lemma serialized_refill (fetch : Finset Nat → Nat → List Entry)
    (st : PreloaderState) (handed : List Nat) :
    stepEv fetch (stepEv fetch ⟨st, [], handed⟩ .fetchStep) .appendStep =
      ⟨preload_batch st fetch, [], handed⟩ := by
  simp only [stepEv, preload_batch]
  split_ifs <;> rfl

end Pool

lemma check_game_over_false_of_active (g : GameState) (q : Nat × PlayerState)
    (hq : q ∈ g.players) (hl : 0 < q.2.lives) : (check_game_over g).1 = false := by
  have hmem : q ∈ g.players.filter (fun r => 0 < r.2.lives) :=
    List.mem_filter.2 ⟨hq, by simpa using hl⟩
  simp only [check_game_over]
  cases hact : g.players.filter (fun r => 0 < r.2.lives) with
  | nil => exact absurd (hact ▸ hmem) (List.not_mem_nil q)
  | cons a l => simp [hact]

namespace LB

lemma assignPlaces_map_score : ∀ (i : Nat) (l : List LBEntry),
    (assignPlaces i l).map (fun e => e.highest_score) = l.map (fun e => e.highest_score)
  | _, [] => rfl
  | i, e :: rest => by
      simp only [assignPlaces, List.map_cons, List.cons.injEq]
      exact ⟨trivial, assignPlaces_map_score (i + 1) rest⟩

lemma assignPlaces_map_place : ∀ (i : Nat) (l : List LBEntry),
    (assignPlaces i l).map (fun e => e.place) = List.range' i l.length
  | _, [] => rfl
  | i, e :: rest => by
      simp only [assignPlaces, List.map_cons, List.length_cons, List.range'_succ,
        List.cons.injEq]
      exact ⟨trivial, assignPlaces_map_place (i + 1) rest⟩

lemma sorted_iff_map (l : List LBEntry) :
    l.Sorted rankRel ↔ (l.map (fun e => e.highest_score)).Sorted (fun x y => y ≤ x) := by
  unfold List.Sorted
  rw [List.pairwise_map]
  rfl

lemma update_rankings_sorted (db : List LBEntry) :
    (update_rankings db).Sorted rankRel := by
  unfold update_rankings
  rw [sorted_iff_map, assignPlaces_map_score, ← sorted_iff_map]
  exact List.sorted_insertionSort rankRel db

lemma update_rankings_places (db : List LBEntry) :
    (update_rankings db).map (fun e => e.place) =
      List.range' 1 (update_rankings db).length := by
  unfold update_rankings
  have hlen : ∀ (i : Nat) (l : List LBEntry), (assignPlaces i l).length = l.length := by
    intro i l
    induction l generalizing i with
    | nil => rfl
    | cons e rest ih => simp [assignPlaces, ih]
  rw [assignPlaces_map_place, hlen]

end LB

end Kusogaki

namespace Kusogaki

/-! ## Claims -/

/-- C1 counterexample: in `twoPlayerGame`, alice (id 10) submits the
correct label; her score is recorded, but the feedback stage's failure
strips her from `answered_players` (which ends up empty), the round-end
check `have_all_players_answered` is still false (the round does not end),
and the deadline's `handle_game_timeout` then takes a life from BOTH
players — bob (3 → 2) although a correct answer was given, and even alice
herself (3 → 2) because she no longer counts as having answered. -/
theorem correct_answer_short_circuit_counterexample :
    (submitAnswer twoPlayerGame 10 "Naruto" "Naruto" pick0 (.ok none)).2 =
      SubmitOutcome.processed true false none ∧
    lookupPlayer afterCorrect.players 10 =
      some { id := 10, name := "alice", lives := 3, score := 1 } ∧
    afterCorrect.answered_players = ∅ ∧
    have_all_players_answered afterCorrect = false ∧
    lookupPlayer (handle_game_timeout afterCorrect).1.players 10 =
      some { id := 10, name := "alice", lives := 2, score := 1 } ∧
    lookupPlayer (handle_game_timeout afterCorrect).1.players 20 =
      some { id := 20, name := "bob", lives := 2, score := 0 } := by decide

/-- C1 (amended): a correct submission changes no other player's entry
(lives and score included), but the round does not short-circuit.  The
feedback stage's failure removes the submitter from `answered_players`
again (net: the set is unchanged and the submitter is not in it), the
round-end check stays false while some active player is unanswered, and at
the deadline `handle_game_timeout` takes one life from every active player
absent from `answered_players` — on a fresh round that includes the correct
answerer. -/
theorem correct_answer_round_amended (g : GameState) (pid : Nat) (a c : String)
    (p : Fin 3) (r : Except Unit (Option Int)) (g' : GameState) (hs : Option Int)
    (h : submitAnswer g pid a c p r = (g', .processed true false hs)) :
    (∀ q ∈ g.players, q.1 ≠ pid → q ∈ g'.players) ∧
    g'.answered_players = g.answered_players ∧
    pid ∉ g'.answered_players ∧
    ((∃ q ∈ g'.players, 0 < q.2.lives ∧ q.2.id ∉ g'.answered_players) →
      have_all_players_answered g' = false) ∧
    (∀ st : GameState, (st.players.map Prod.fst).Nodup →
      ∀ k pl, (k, pl) ∈ st.players → 0 < pl.lives → k ∉ st.answered_players →
        k ∉ st.timed_out_players →
        (k, { pl with lives := pl.lives - 1 }) ∈ (handle_game_timeout st).1.players) := by
  obtain ⟨hnotin, hans⟩ := processed_strips_answered g pid a c p r g' true false hs h
  refine ⟨?_, hans, (by rw [hans]; exact hnotin), ?_, ?_⟩
  · intro q hq hne
    have hg' : (submitAnswer g pid a c p r).1 = g' := by rw [h]
    rcases submitAnswer_players g pid a c p r with heq | ⟨w, _, heq⟩ | heq
    · rw [hg'] at heq
      rw [heq]
      exact hq
    · rw [hg'] at heq
      rw [heq]
      have : (fun q0 : Nat × PlayerState => if q0.1 = pid then
          (q0.1, { q0.2 with score := q0.2.score + w }) else q0) q = q := by
        simp [hne]
      exact this ▸ List.mem_map_of_mem _ hq
    · rw [hg'] at heq
      rw [heq]
      have : (fun q0 : Nat × PlayerState => if q0.1 = pid then
          (q0.1, { q0.2 with lives := q0.2.lives - 1 }) else q0) q = q := by
        simp [hne]
      exact this ▸ List.mem_map_of_mem _ hq
  · intro ⟨q, hq, hlives, hna⟩
    exact have_all_false_of_unanswered g' q hq hlives hna
  · intro st hnd k pl hmem hlives hka hkt
    exact timeoutLoop_penalizes st.answered_players st.players st.timed_out_players hnd
      k pl hmem hlives hka hkt

/-- C1 witness: the amended claim at the concrete two-player game. -/
theorem correct_answer_round_amended_witness :
    (∀ q ∈ twoPlayerGame.players, q.1 ≠ 10 → q ∈ afterCorrect.players) ∧
    afterCorrect.answered_players = twoPlayerGame.answered_players ∧
    10 ∉ afterCorrect.answered_players ∧
    ((∃ q ∈ afterCorrect.players, 0 < q.2.lives ∧ q.2.id ∉ afterCorrect.answered_players) →
      have_all_players_answered afterCorrect = false) ∧
    (∀ st : GameState, (st.players.map Prod.fst).Nodup →
      ∀ k pl, (k, pl) ∈ st.players → 0 < pl.lives → k ∉ st.answered_players →
        k ∉ st.timed_out_players →
        (k, { pl with lives := pl.lives - 1 }) ∈ (handle_game_timeout st).1.players) :=
  correct_answer_round_amended twoPlayerGame 10 "Naruto" "Naruto" pick0 (.ok none)
    afterCorrect none (by decide)

/-- C2 counterexample, at the level of the cited operations: on the
well-formed state `eliminatedAliceGame` (alice eliminated at 0 lives, game
not over because bob is alive), a wrong-answer press by alice is processed
— the answer entry point applies `process_answer` to any player in
`game.players` with no lives filter — and the unguarded, unclamped
decrement at service.py:411 produces lives = −1.  This refutes the claim's
clause that every lives-decrementing operation is either applied only to a
player with `lives > 0` or clamps at 0.  (In the deployed features engine
the question of reachable states is moot: `_run_game` aborts on the missing
`round_feedback` attribute before any answer can be submitted.) -/
theorem lives_negative_counterexample :
    (check_game_over eliminatedAliceGame).1 = false ∧
    (submitAnswer eliminatedAliceGame 10 "Wrong" "Right" pick0 (.ok none)).2 =
      SubmitOutcome.processed false true none ∧
    lookupPlayer (submitAnswer eliminatedAliceGame 10 "Wrong" "Right"
        pick0 (.ok none)).1.players 10 =
      some { id := 10, name := "alice", lives := -1, score := 0 } := by decide

/-- C2 (amended): timeout handling decrements lives only for players with
`lives > 0`, so it keeps all lives non-negative; and an answer submission
keeps all lives non-negative provided the submitting player still has a
life — the wrong-answer decrement has no clamp, so only an eliminated
player's submission can drive lives below zero. -/
theorem lives_never_negative_amended (g : GameState)
    (hall : ∀ q ∈ g.players, 0 ≤ q.2.lives) :
    (∀ q ∈ (handle_game_timeout g).1.players, 0 ≤ q.2.lives) ∧
    (∀ (pid : Nat) (a c : String) (p : Fin 3) (r : Except Unit (Option Int)),
      (∀ q ∈ g.players, q.1 = pid → 1 ≤ q.2.lives) →
      ∀ q ∈ (submitAnswer g pid a c p r).1.players, 0 ≤ q.2.lives) := by
  constructor
  · intro q hq
    exact timeoutLoop_lives_nonneg g.answered_players g.players g.timed_out_players hall q hq
  · intro pid a c p r hpid q hq
    rcases submitAnswer_players g pid a c p r with heq | ⟨w, _, heq⟩ | heq
    · rw [heq] at hq
      exact hall q hq
    · rw [heq] at hq
      obtain ⟨q0, hq0, rfl⟩ := List.mem_map.1 hq
      by_cases hk : q0.1 = pid
      · simp only [hk, if_pos rfl]
        exact hall q0 hq0
      · simp only [if_neg hk]
        exact hall q0 hq0
    · rw [heq] at hq
      obtain ⟨q0, hq0, rfl⟩ := List.mem_map.1 hq
      by_cases hk : q0.1 = pid
      · simp only [hk, if_pos rfl]
        have := hpid q0 hq0 hk
        show (0 : Int) ≤ q0.2.lives - 1
        omega
      · simp only [if_neg hk]
        exact hall q0 hq0

/-- C2 witness: the amended claim at the concrete two-player game. -/
theorem lives_never_negative_amended_witness :
    (∀ q ∈ (handle_game_timeout twoPlayerGame).1.players, 0 ≤ q.2.lives) ∧
    (∀ (pid : Nat) (a c : String) (p : Fin 3) (r : Except Unit (Option Int)),
      (∀ q ∈ twoPlayerGame.players, q.1 = pid → 1 ≤ q.2.lives) →
      ∀ q ∈ (submitAnswer twoPlayerGame pid a c p r).1.players, 0 ≤ q.2.lives) :=
  lives_never_negative_amended twoPlayerGame (by decide)

/-- C3 (code bug, evaluated at the failing input): the `AlreadyAnswered`
guard in `button_callback` is meant to make answer mutation once-per-round,
but every processed first submission ends with the feedback stage raising
`AttributeError` on the never-assigned `round_feedback` /
`pending_high_score` attributes, after which `button_callback`'s handler
removes the player from `answered_players` (cog.py:83).  So alice's second
wrong-answer press in the same round is NOT rejected as already-answered —
it is processed again, and her lives are decremented twice (3 → 2 → 1). -/
theorem double_mutation_at_failing_input :
    (submitAnswer twoPlayerGame 10 "Wrong" "Right" pick0 (.ok none)).2 =
      SubmitOutcome.processed false false none ∧
    lookupPlayer afterWrong.players 10 =
      some { id := 10, name := "alice", lives := 2, score := 0 } ∧
    10 ∉ afterWrong.answered_players ∧
    (submitAnswer afterWrong 10 "Wrong" "Right" pick0 (.ok none)).2 =
      SubmitOutcome.processed false false none ∧
    lookupPlayer (submitAnswer afterWrong 10 "Wrong" "Right" pick0 (.ok none)).1.players 10 =
      some { id := 10, name := "alice", lives := 1, score := 0 } := by decide

end Kusogaki

namespace Kusogaki

/-- C4 counterexample: when the leaderboard update raises, the submission
reports an error and the player is rolled back out of `answered_players`,
but the per-tier counter and the player's score keep their incremented
values — the step committed partially, refuting atomicity. -/
theorem partial_commit_counterexample :
    (submitAnswer twoPlayerGame 10 "X" "X" pick0 (.error ())).2 =
      SubmitOutcome.errored ∧
    (submitAnswer twoPlayerGame 10 "X" "X" pick0 (.error ())).1.easy_correct = 1 ∧
    lookupPlayer (submitAnswer twoPlayerGame 10 "X" "X" pick0 (.error ())).1.players 10 =
      some { id := 10, name := "alice", lives := 3, score := 1 } ∧
    10 ∉ (submitAnswer twoPlayerGame 10 "X" "X" pick0 (.error ())).1.answered_players := by
  decide

/-- C4 (amended): when the collaborator `update_player_score` fails during a
correct answer, only the `answered_players` insertion is rolled back; the
per-tier correct counter and the submitting player's score mutations made
before the failure persist, so the answer-processing step is not atomic. -/
theorem answer_step_not_atomic (g : GameState) (pid : Nat) (a c : String) (p : Fin 3)
    (pl : PlayerState) (hfind : lookupPlayer g.players pid = some pl)
    (hna : pid ∉ g.answered_players) (hnt : pid ∉ g.timed_out_players)
    (hnp : g.processing_answers = false) (hac : a = c) :
    (submitAnswer g pid a c p (.error ())).2 = .errored ∧
    (submitAnswer g pid a c p (.error ())).1.answered_players = g.answered_players ∧
    (submitAnswer g pid a c p (.error ())).1.easy_correct +
      (submitAnswer g pid a c p (.error ())).1.medium_correct +
      (submitAnswer g pid a c p (.error ())).1.hard_correct =
      g.easy_correct + g.medium_correct + g.hard_correct + 1 ∧
    ∃ w : Int, (w = 1 ∨ w = 2 ∨ w = 3) ∧
      lookupPlayer (submitAnswer g pid a c p (.error ())).1.players pid =
        some { pl with score := pl.score + w } := by
  simp only [submitAnswer]
  rw [if_neg hna]
  rw [if_neg (show pid ∉ ({ g with answered_players := insert pid g.answered_players } :
        GameState).timed_out_players from hnt)]
  rw [if_neg (show ¬({ g with answered_players := insert pid g.answered_players } :
        GameState).processing_answers = true by simpa using hnp)]
  have hp := process_answer_db_failure
    { g with answered_players := insert pid g.answered_players,
             processing_answers := true } pid a c p pl hfind hnt hac
  cases hpa : process_answer
      { g with answered_players := insert pid g.answered_players,
               processing_answers := true } pid a c p (.error ()) with
  | mk g3 res =>
      rw [hpa] at hp
      obtain ⟨hres, hans, htim, hcnt, w, hw, hlook⟩ := hp
      dsimp only at hres hans htim hcnt hlook
      subst hres
      refine ⟨rfl, ?_, ?_, w, hw, ?_⟩
      · dsimp only
        rw [hans, Finset.erase_insert hna, Finset.erase_eq_of_not_mem hna]
      · dsimp only
        exact hcnt
      · dsimp only
        exact hlook

/-- C4 witness: the amended claim at the concrete two-player game. -/
theorem answer_step_not_atomic_witness :
    (submitAnswer twoPlayerGame 10 "X" "X" pick0 (.error ())).2 =
      SubmitOutcome.errored ∧
    (submitAnswer twoPlayerGame 10 "X" "X" pick0 (.error ())).1.answered_players =
      twoPlayerGame.answered_players ∧
    (submitAnswer twoPlayerGame 10 "X" "X" pick0 (.error ())).1.easy_correct +
      (submitAnswer twoPlayerGame 10 "X" "X" pick0 (.error ())).1.medium_correct +
      (submitAnswer twoPlayerGame 10 "X" "X" pick0 (.error ())).1.hard_correct =
      twoPlayerGame.easy_correct + twoPlayerGame.medium_correct +
        twoPlayerGame.hard_correct + 1 ∧
    ∃ w : Int, (w = 1 ∨ w = 2 ∨ w = 3) ∧
      lookupPlayer (submitAnswer twoPlayerGame 10 "X" "X" pick0 (.error ())).1.players 10 =
        some { id := 10, name := "alice", lives := 3, score := 0 + w } :=
  answer_step_not_atomic twoPlayerGame 10 "X" "X" pick0 (PlayerState.mk 10 "alice" 3 0)
    (by decide) (by decide) (by decide) (by decide) rfl

/-- C5 counterexample: two `get_next_image` calls on the empty queue each
start a synchronous `_preload_batch`; both read `used_images = ∅`, both
fetch the same (contract-compliant) row of id 0, and both suspend at the
image-preload await before either appends — nothing prevents this since
`_preload_lock` is never acquired and the synchronous refill is not guarded
by `_preload_tasks`.  Each then appends and pops, so id 0 is handed out
twice with no reset in between, even against a `FetchOk` database. -/
theorem overlapping_refills_counterexample :
    (Pool.runPoolConc fetchOne
      [Pool.PoolEv.fetchStep, Pool.PoolEv.fetchStep, Pool.PoolEv.appendStep,
       Pool.PoolEv.popStep, Pool.PoolEv.appendStep, Pool.PoolEv.popStep]).handed =
      [0, 0] ∧
    ¬ ((Pool.runPoolConc fetchOne
      [Pool.PoolEv.fetchStep, Pool.PoolEv.fetchStep, Pool.PoolEv.appendStep,
       Pool.PoolEv.popStep, Pool.PoolEv.appendStep, Pool.PoolEv.popStep]).handed).Nodup ∧
    Pool.FetchOk fetchOne :=
  ⟨by decide, by decide, by
    intro ex n
    by_cases h : 0 ∈ ex <;> simp [fetchOne, h]⟩

/-- C5 (amended): for any database fetch satisfying its contract and any
reset-free sequence of SERIALIZED pool operations (each refill's
exclusion-set read, fetch and append complete before any other refill's
fetch) from the fresh category state, the ids handed out by
`get_next_image` are pairwise distinct.  Serialization is an assumption the
code does not enforce: overlapping refills, which the unguarded suspension
inside `_preload_batch` permits, can hand the same id out twice (see the
counterexample). -/
theorem candidates_not_reused (fetch : Finset Nat → Nat → List Pool.Entry)
    (hf : Pool.FetchOk fetch) (ops : List Pool.PoolOp) :
    ((Pool.runPool fetch ops).2).Nodup :=
  (Pool.runPool_inv fetch hf ops).handed_nodup

/-- C5 witness: a compliant one-image fetch with two serialized pops. -/
theorem candidates_not_reused_witness :
    ((Pool.runPool fetchOne [Pool.PoolOp.getNext, Pool.PoolOp.getNext]).2).Nodup :=
  candidates_not_reused fetchOne
    (by
      intro ex n
      by_cases h : 0 ∈ ex <;> simp [fetchOne, h])
    [Pool.PoolOp.getNext, Pool.PoolOp.getNext]

/-- C6: difficulty progression — fixed mode always returns the configured
tier; adaptive mode returns easy below the easy threshold, then medium
below the medium threshold, then hard below the hard threshold; once all
thresholds are met the returned tier is one of easy/medium/hard, and each
of the three is realised by some random draw. -/
theorem difficulty_progression (g : GameState) (pick : Fin 3) :
    (g.difficulty ≠ GameDifficulty.normal →
      get_current_difficulty g pick = difficultyStr g.difficulty) ∧
    (g.difficulty = GameDifficulty.normal → g.easy_correct < EASY_THRESHOLD →
      get_current_difficulty g pick = "easy") ∧
    (g.difficulty = GameDifficulty.normal → EASY_THRESHOLD ≤ g.easy_correct →
      g.medium_correct < MEDIUM_THRESHOLD → get_current_difficulty g pick = "medium") ∧
    (g.difficulty = GameDifficulty.normal → EASY_THRESHOLD ≤ g.easy_correct →
      MEDIUM_THRESHOLD ≤ g.medium_correct → g.hard_correct < HARD_THRESHOLD →
      get_current_difficulty g pick = "hard") ∧
    (g.difficulty = GameDifficulty.normal → EASY_THRESHOLD ≤ g.easy_correct →
      MEDIUM_THRESHOLD ≤ g.medium_correct → HARD_THRESHOLD ≤ g.hard_correct →
      get_current_difficulty g pick ∈ (["easy", "medium", "hard"] : List String) ∧
      ∀ s ∈ (["easy", "medium", "hard"] : List String), ∃ q : Fin 3,
        get_current_difficulty g q = s) := by
  unfold get_current_difficulty
  refine ⟨?_, ?_, ?_, ?_, ?_⟩
  · intro h
    rw [if_pos h]
  · intro h h1
    rw [if_neg (by simp [h]), if_pos h1]
    rfl
  · intro h h1 h2
    rw [if_neg (by simp [h]), if_neg (by omega), if_pos h2]
    rfl
  · intro h h1 h2 h3
    rw [if_neg (by simp [h]), if_neg (by omega), if_neg (by omega), if_pos h3]
    rfl
  · intro h h1 h2 h3
    constructor
    · rw [if_neg (by simp [h]), if_neg (by omega), if_neg (by omega), if_neg (by omega)]
      rcases pick with ⟨v, hv⟩
      interval_cases v <;> simp [difficultyStr]
    · intro s hs
      simp only [List.mem_cons, List.not_mem_nil, or_false] at hs
      rcases hs with rfl | rfl | rfl
      · refine ⟨⟨0, by omega⟩, ?_⟩
        rw [if_neg (by simp [h]), if_neg (by omega), if_neg (by omega), if_neg (by omega)]
        rfl
      · refine ⟨⟨1, by omega⟩, ?_⟩
        rw [if_neg (by simp [h]), if_neg (by omega), if_neg (by omega), if_neg (by omega)]
        rfl
      · refine ⟨⟨2, by omega⟩, ?_⟩
        rw [if_neg (by simp [h]), if_neg (by omega), if_neg (by omega), if_neg (by omega)]
        rfl

/-- C6 witness: adaptive mode with all counters at zero selects easy. -/
theorem difficulty_progression_witness :
    get_current_difficulty normalGame pick0 = "easy" :=
  (difficulty_progression normalGame pick0).2.1 rfl (by decide)

end Kusogaki

namespace Kusogaki

/-- C7 counterexample: calling `update_player_score` with a score not above
the stored highest leaves the table unchanged and returns `none`, not the
(unchanged) highest score 5 the claim requires in every case. -/
theorem update_score_noop_counterexample :
    LB.update_player_score [LB.LBEntry.mk 1 "a" 5 1] 1 "a" 3 =
      ([LB.LBEntry.mk 1 "a" 5 1], none) := by decide

/-- C7 (amended): `update_player_score` inserts a missing entry with place 0
and triggers a full rank recomputation, updates an existing entry and
recomputes whenever the new score beats the stored highest, and otherwise
leaves the table unchanged; it returns the new highest score when an insert
or update occurred and `none` (not the unchanged highest) otherwise. -/
theorem update_score_cases (db : List LB.LBEntry) (uid : Nat) (name : String)
    (score : Int) :
    (db.find? (fun e => e.user == uid) = none →
      LB.update_player_score db uid name score =
        (LB.update_rankings (db ++ [LB.LBEntry.mk uid name score 0]), some score)) ∧
    (∀ e0, db.find? (fun e => e.user == uid) = some e0 → e0.highest_score < score →
      LB.update_player_score db uid name score =
        (LB.update_rankings (db.map (fun e2 => if e2.user == uid then
          { e2 with highest_score := score, display_name := name } else e2)),
          some score)) ∧
    (∀ e0, db.find? (fun e => e.user == uid) = some e0 → score ≤ e0.highest_score →
      LB.update_player_score db uid name score = (db, none)) := by
  refine ⟨?_, ?_, ?_⟩
  · intro hf
    simp [LB.update_player_score, hf]
  · intro e0 hf hs
    simp [LB.update_player_score, hf, hs]
  · intro e0 hf hs
    simp [LB.update_player_score, hf, not_lt.2 hs]

/-- C7 witness: inserting a first entry recomputes ranks and returns the
score. -/
theorem update_score_cases_witness :
    LB.update_player_score [] 7 "n" 4 =
      (LB.update_rankings [LB.LBEntry.mk 7 "n" 4 0], some 4) :=
  (update_score_cases [] 7 "n" 4).1 rfl

/-- C8: after any `update_player_score` call that records a new highest
score (returns `some`), the stored table is sorted by descending
`highest_score` and its places are exactly the gap-free 1-based ranks
1..N. -/
theorem rank_recompute_invariant (db : List LB.LBEntry) (uid : Nat) (name : String)
    (score : Int) (db2 : List LB.LBEntry) (r : Option Int)
    (h : LB.update_player_score db uid name score = (db2, r)) (hr : r.isSome) :
    db2.Sorted LB.rankRel ∧ db2.map (fun e => e.place) = List.range' 1 db2.length := by
  simp only [LB.update_player_score] at h
  cases hf : db.find? (fun e => e.user == uid) with
  | some entry =>
      rw [hf] at h
      dsimp only at h
      split_ifs at h with hs
      · obtain ⟨rfl, -⟩ := Prod.mk.injEq .. ▸ h
        exact ⟨LB.update_rankings_sorted _, LB.update_rankings_places _⟩
      · obtain ⟨-, hnone⟩ := Prod.mk.injEq .. ▸ h
        rw [← hnone] at hr
        simp at hr
  | none =>
      rw [hf] at h
      dsimp only at h
      obtain ⟨rfl, -⟩ := Prod.mk.injEq .. ▸ h
      exact ⟨LB.update_rankings_sorted _, LB.update_rankings_places _⟩

/-- C8 witness: the first insert yields a sorted table with rank 1. -/
theorem rank_recompute_invariant_witness :
    ([LB.LBEntry.mk 7 "n" 4 1] : List LB.LBEntry).Sorted LB.rankRel ∧
    ([LB.LBEntry.mk 7 "n" 4 1] : List LB.LBEntry).map (fun e => e.place) =
      List.range' 1 1 :=
  rank_recompute_invariant [] 7 "n" 4 [LB.LBEntry.mk 7 "n" 4 1] (some 4) (by decide) rfl

/-- C9 counterexample: the features engine round loop (cog.py 503-532), a
cited source of the claim, has no zero-answer special case.  On
`twoPlayerGame` with zero submissions at the deadline, `handle_game_timeout`
takes one life from every active player (lives ARE changed by the round) and
`check_game_over` still reports the game as not over, so the loop sleeps and
prepares a next round instead of transitioning to game over. -/
theorem zero_answers_no_abort_counterexample :
    (handle_game_timeout twoPlayerGame).2 = [("alice", 2), ("bob", 2)] ∧
    lookupPlayer (handle_game_timeout twoPlayerGame).1.players 10 =
      some { id := 10, name := "alice", lives := 2, score := 0 } ∧
    lookupPlayer (handle_game_timeout twoPlayerGame).1.players 20 =
      some { id := 20, name := "bob", lives := 2, score := 0 } ∧
    (check_game_over (handle_game_timeout twoPlayerGame).1).1 = false := by decide

/-- C9 (amended): only the `GameManager` engine implements the zero-answer
abort.  There, a round of `run_game` in which no answer event arrives
before the timeout aborts via the `ROUND_TIMEOUT` branch: the game is
ended with every player's hp and score untouched, and no further round
input is ever consumed for that session.  In the features engine round
loop there is no such special case: when a player who still has at least
two lives reaches a zero-answer deadline, the timeout penalty leaves the
session not-game-over, so a next round follows. -/
theorem zero_answers_abort (g : GM.GameState) (rd : GM.RoundData)
    (rest : List (GM.RoundData × List (Nat × Nat × Bool)))
    (h : g.is_active = true) :
    (GM.run_game g ((rd, []) :: rest) = { g with is_active := false } ∧
      GM.run_round g rd [] =
        ({ g with is_active := false }, GM.RoundOutcome.abortedNoAnswer)) ∧
    (∀ st : GameState, (st.players.map Prod.fst).Nodup →
      ∀ k pl, (k, pl) ∈ st.players → 2 ≤ pl.lives → k ∉ st.answered_players →
        k ∉ st.timed_out_players →
        (check_game_over (handle_game_timeout st).1).1 = false) := by
  have hr : GM.run_round g rd [] =
      ({ g with is_active := false }, GM.RoundOutcome.abortedNoAnswer) := by
    simp [GM.run_round, GM.collectAnswers, GM.end_game]
  refine ⟨⟨?_, hr⟩, ?_⟩
  · simp [GM.run_game, h, hr, GM.end_game]
  · intro st hnd k pl hmem hl hka hkt
    have hpen := timeoutLoop_penalizes st.answered_players st.players
      st.timed_out_players hnd k pl hmem (by omega) hka hkt
    refine check_game_over_false_of_active _ (k, { pl with lives := pl.lives - 1 })
      hpen ?_
    show (0 : Int) < pl.lives - 1
    omega

/-- C9 witness: the two-player GameManager game with an empty first round. -/
theorem zero_answers_abort_witness :
    (GM.run_game gmTwoPlayer [(gmRound, []), (gmRound, [(10, 3, false)])] =
      { gmTwoPlayer with is_active := false } ∧
      GM.run_round gmTwoPlayer gmRound [] =
        ({ gmTwoPlayer with is_active := false }, GM.RoundOutcome.abortedNoAnswer)) ∧
    (∀ st : GameState, (st.players.map Prod.fst).Nodup →
      ∀ k pl, (k, pl) ∈ st.players → 2 ≤ pl.lives → k ∉ st.answered_players →
        k ∉ st.timed_out_players →
        (check_game_over (handle_game_timeout st).1).1 = false) :=
  zero_answers_abort gmTwoPlayer gmRound [(gmRound, [(10, 3, false)])] rfl

/-- C10: `handle_game_timeout` is idempotent within a round — applying it a
second time to the resulting state changes nothing and reports no newly
timed-out players, because every player penalised the first time is now in
`timed_out_players` and is skipped by the membership guard. -/
theorem handle_game_timeout_idem (g : GameState) :
    handle_game_timeout (handle_game_timeout g).1 = ((handle_game_timeout g).1, []) := by
  unfold handle_game_timeout
  simp only []
  rw [timeoutLoop_idem g.answered_players g.players g.timed_out_players _ (subset_refl _)]
  simp

end Kusogaki
